import Mathlib

/-!
# LeadPursuit: the interception solver over the reals

A shallow embedding of `src/math/Types.h`, `src/math/AngleUtils.h` and
`src/math/InterceptionSolver.cpp`.  Every `double` is read as a real number, so
the arithmetic is exact; `std::sin`, `std::cos`, `std::sqrt` and `std::atan2`
are the real functions they approximate.
-/

namespace lead_pursuit

/-! ## AngleUtils.h -/

/-- The tolerance `kEpsilon = 1e-9`. -/
noncomputable def kEpsilon : ℝ := 1e-9

/-- Degrees to radians: `deg * pi / 180.0`. -/
noncomputable def deg_to_rad (deg : ℝ) : ℝ := deg * Real.pi / 180

/-- Radians to degrees: `rad * 180.0 / pi`. -/
noncomputable def rad_to_deg (rad : ℝ) : ℝ := rad * 180 / Real.pi

/-- East component of a velocity given by a navigation heading. -/
noncomputable def nav_vx (speed nav_deg : ℝ) : ℝ := speed * Real.sin (deg_to_rad nav_deg)

/-- North component of a velocity given by a navigation heading. -/
noncomputable def nav_vy (speed nav_deg : ℝ) : ℝ := speed * Real.cos (deg_to_rad nav_deg)

/-- The real function computed by `std::atan2(y, x)`: the angle in `(-π, π]` of the
point `(x, y)`, and `0` at the origin. -/
noncomputable def atan2 (y x : ℝ) : ℝ := Complex.arg ⟨x, y⟩

/-! ## Types.h -/

/-- A point of the plane, `x` east and `y` north. -/
structure Point2D where
  x : ℝ := 0
  y : ℝ := 0

/-- The five inputs of the solver. -/
structure InterceptionParams where
  hunter_pos : Point2D := {}
  hunter_speed : ℝ := 0
  target_pos : Point2D := {}
  target_speed : ℝ := 0
  target_heading_deg : ℝ := 0

/-- The output of the solver; the default value is the "impossible" result `{}`. -/
structure InterceptionResult where
  success : Bool := false
  time : ℝ := 0
  heading_deg : ℝ := 0
  intercept : Point2D := {}
  distance : ℝ := 0

/-! ## InterceptionSolver.cpp

The local constants of `solve` are given names so that statements about the
function can mention them. -/

/-- Local `dx` of `solve`. -/
def dx (p : InterceptionParams) : ℝ := p.target_pos.x - p.hunter_pos.x

/-- Local `dy` of `solve`. -/
def dy (p : InterceptionParams) : ℝ := p.target_pos.y - p.hunter_pos.y

/-- Local `dist_sq` of `solve`. -/
def dist_sq (p : InterceptionParams) : ℝ := dx p * dx p + dy p * dy p

/-- Local `vTx` of `solve`. -/
noncomputable def vTx (p : InterceptionParams) : ℝ := nav_vx p.target_speed p.target_heading_deg

/-- Local `vTy` of `solve`. -/
noncomputable def vTy (p : InterceptionParams) : ℝ := nav_vy p.target_speed p.target_heading_deg

/-- Quadratic coefficient `a` of `solve`. -/
noncomputable def coef_a (p : InterceptionParams) : ℝ :=
  vTx p * vTx p + vTy p * vTy p - p.hunter_speed * p.hunter_speed

/-- Quadratic coefficient `b` of `solve`. -/
noncomputable def coef_b (p : InterceptionParams) : ℝ := 2 * (dx p * vTx p + dy p * vTy p)

/-- Quadratic coefficient `c` of `solve`. -/
def coef_c (p : InterceptionParams) : ℝ := dist_sq p

/-- Local `discriminant` of `solve`. -/
noncomputable def discriminant (p : InterceptionParams) : ℝ :=
  coef_b p * coef_b p - 4 * coef_a p * coef_c p

/-- Local `t1` of `solve`. -/
noncomputable def root_t1 (p : InterceptionParams) : ℝ :=
  (-coef_b p - Real.sqrt (discriminant p)) / (2 * coef_a p)

/-- Local `t2` of `solve`. -/
noncomputable def root_t2 (p : InterceptionParams) : ℝ :=
  (-coef_b p + Real.sqrt (discriminant p)) / (2 * coef_a p)

/-- The value of `t_min` after the two conditional assignments
`if (t1 > kEpsilon) t_min = t1;` and
`if (t2 > kEpsilon && (t_min < 0.0 || t2 < t_min)) t_min = t2;`, starting from `-1.0`. -/
noncomputable def pick_t_min (t1 t2 : ℝ) : ℝ :=
  let t_min : ℝ := if t1 > kEpsilon then t1 else -1
  if t2 > kEpsilon ∧ (t_min < 0 ∨ t2 < t_min) then t2 else t_min

/-- The tail of `solve` after a time `t` has been chosen: intercept point, hunter
heading toward it, distance, and the successful result. -/
noncomputable def finish (p : InterceptionParams) (t : ℝ) : InterceptionResult :=
  let intercept : Point2D := ⟨p.target_pos.x + vTx p * t, p.target_pos.y + vTy p * t⟩
  let hx := intercept.x - p.hunter_pos.x
  let hy := intercept.y - p.hunter_pos.y
  let heading_rad := atan2 hx hy
  let heading_deg := rad_to_deg heading_rad
  let heading_deg := if heading_deg < 0 then heading_deg + 360 else heading_deg
  let distance := p.hunter_speed * t
  ⟨true, t, heading_deg, intercept, distance⟩

/-- The function `InterceptionSolver::solve`. -/
noncomputable def solve (p : InterceptionParams) : InterceptionResult :=
  if dist_sq p < kEpsilon * kEpsilon then
    ⟨true, 0, 0, p.hunter_pos, 0⟩
  else if p.hunter_speed < kEpsilon then
    {}
  else if |coef_a p| < kEpsilon then
    if |coef_b p| < kEpsilon then
      {}
    else
      let t_lin := -coef_c p / coef_b p
      let t : ℝ := if t_lin > kEpsilon then t_lin else -1
      finish p t
  else
    if discriminant p < 0 then
      {}
    else
      let t_min := pick_t_min (root_t1 p) (root_t2 p)
      if t_min < 0 then {} else finish p t_min

/-- The request with both positions multiplied by `k`, speeds and target heading
unchanged: the transformation of the scale-symmetry property. -/
def scale_positions (k : ℝ) (p : InterceptionParams) : InterceptionParams :=
  ⟨⟨k * p.hunter_pos.x, k * p.hunter_pos.y⟩, p.hunter_speed,
    ⟨k * p.target_pos.x, k * p.target_pos.y⟩, p.target_speed, p.target_heading_deg⟩

/-! ## Concrete requests used below -/

/-- Hunter at the origin with speed 1; target 10 north of it, heading south (180°) with
speed 2: both roots of the quadratic, 10/3 and 10, are positive. -/
noncomputable def req_closing : InterceptionParams := ⟨⟨0, 0⟩, 1, ⟨0, 10⟩, 2, 180⟩

/-- Hunter at the origin with speed 1e-5; target 1 south of it, heading north (0°)
with speed 2e-5: `a = 3e-10` lies strictly between 0 and `kEpsilon`. -/
noncomputable def req_slow : InterceptionParams := ⟨⟨0, 0⟩, 1e-5, ⟨0, -1⟩, 2e-5, 0⟩

/-- Hunter at the origin with speed 1; target 1 north of it, heading north (0°) with
the same speed 1: `a = 0`, `b = 2`, `c = 1`, and `-c / b = -1/2`. -/
noncomputable def req_away : InterceptionParams := ⟨⟨0, 0⟩, 1, ⟨0, 1⟩, 1, 0⟩

/-- Hunter at the origin, not moving; target 1e-10 east of it, not moving. -/
noncomputable def req_near : InterceptionParams := ⟨⟨0, 0⟩, 0, ⟨1e-10, 0⟩, 0, 0⟩

/-- Concrete scenario A of the specification: hunter at (0,0) with speed 15; target at
(100,0) with speed 8, heading 45°. -/
noncomputable def scenario_A : InterceptionParams := ⟨⟨0, 0⟩, 15, ⟨100, 0⟩, 8, 45⟩

/-- Concrete scenario B of the specification: hunter at (0,0) with speed 5; target at
(100,0) with speed 20, heading 90°. -/
noncomputable def scenario_B : InterceptionParams := ⟨⟨0, 0⟩, 5, ⟨100, 0⟩, 20, 90⟩

/-- Hunter at the origin with speed 1e-5; target at (1,0), not moving. -/
noncomputable def req_slow_hunter : InterceptionParams := ⟨⟨0, 0⟩, 1e-5, ⟨1, 0⟩, 0, 0⟩

/-- Hunter at the origin with speed 2; target at (3,4), not moving. -/
noncomputable def req_still : InterceptionParams := ⟨⟨0, 0⟩, 2, ⟨3, 4⟩, 0, 0⟩

/-- Hunter at the origin with speed 1; target at (0,1), not moving. -/
noncomputable def req_unit : InterceptionParams := ⟨⟨0, 0⟩, 1, ⟨0, 1⟩, 0, 0⟩

/-! ## Basic facts -/

theorem kEpsilon_pos : 0 < kEpsilon := by
  unfold kEpsilon; norm_num

theorem kEpsilon_lt_one : kEpsilon < 1 := by
  unfold kEpsilon; norm_num

theorem dist_sq_nonneg (p : InterceptionParams) : 0 ≤ dist_sq p := by
  unfold dist_sq; nlinarith [mul_self_nonneg (dx p), mul_self_nonneg (dy p)]

theorem solve_colocated (p : InterceptionParams) (h : dist_sq p < kEpsilon * kEpsilon) :
    solve p = ⟨true, 0, 0, p.hunter_pos, 0⟩ := by
  unfold solve; rw [if_pos h]

theorem solve_immobile (p : InterceptionParams) (h : ¬ dist_sq p < kEpsilon * kEpsilon)
    (hs : p.hunter_speed < kEpsilon) : solve p = {} := by
  unfold solve; rw [if_neg h, if_pos hs]

theorem solve_linear (p : InterceptionParams) (h : ¬ dist_sq p < kEpsilon * kEpsilon)
    (hs : ¬ p.hunter_speed < kEpsilon) (ha : |coef_a p| < kEpsilon)
    (hb : ¬ |coef_b p| < kEpsilon) :
    solve p = finish p (if -coef_c p / coef_b p > kEpsilon then -coef_c p / coef_b p else -1) := by
  unfold solve; rw [if_neg h, if_neg hs, if_pos ha, if_neg hb]

theorem solve_linear_none (p : InterceptionParams) (h : ¬ dist_sq p < kEpsilon * kEpsilon)
    (hs : ¬ p.hunter_speed < kEpsilon) (ha : |coef_a p| < kEpsilon)
    (hb : |coef_b p| < kEpsilon) : solve p = {} := by
  unfold solve; rw [if_neg h, if_neg hs, if_pos ha, if_pos hb]

theorem solve_quadratic (p : InterceptionParams) (h : ¬ dist_sq p < kEpsilon * kEpsilon)
    (hs : ¬ p.hunter_speed < kEpsilon) (ha : ¬ |coef_a p| < kEpsilon) :
    solve p = if discriminant p < 0 then {}
      else if pick_t_min (root_t1 p) (root_t2 p) < 0 then {}
      else finish p (pick_t_min (root_t1 p) (root_t2 p)) := by
  unfold solve; rw [if_neg h, if_neg hs, if_neg ha]

theorem vel_sq (p : InterceptionParams) :
    vTx p * vTx p + vTy p * vTy p = p.target_speed * p.target_speed := by
  unfold vTx vTy nav_vx nav_vy
  have := Real.sin_sq_add_cos_sq (deg_to_rad p.target_heading_deg)
  linear_combination (p.target_speed * p.target_speed) * this

theorem coef_a_eq (p : InterceptionParams) :
    coef_a p = p.target_speed * p.target_speed - p.hunter_speed * p.hunter_speed := by
  unfold coef_a; rw [vel_sq]

theorem deg_to_rad_zero : deg_to_rad 0 = 0 := by
  unfold deg_to_rad; simp

theorem atan2_zero_zero : atan2 0 0 = 0 := by
  unfold atan2
  have : (⟨0, 0⟩ : ℂ) = 0 := rfl
  rw [this, Complex.arg_zero]

/-- The root selection: `-1` when neither candidate exceeds `kEpsilon`, otherwise the
smaller of the candidates that do. -/
theorem pick_t_min_spec (t1 t2 : ℝ) :
    (t1 ≤ kEpsilon ∧ t2 ≤ kEpsilon ∧ pick_t_min t1 t2 = -1) ∨
      (kEpsilon < pick_t_min t1 t2 ∧ (pick_t_min t1 t2 = t1 ∨ pick_t_min t1 t2 = t2) ∧
        (kEpsilon < t1 → pick_t_min t1 t2 ≤ t1) ∧ (kEpsilon < t2 → pick_t_min t1 t2 ≤ t2)) := by
  have he := kEpsilon_pos
  unfold pick_t_min
  dsimp only
  by_cases h1 : t1 > kEpsilon <;> by_cases h2 : t2 > kEpsilon
  · right
    by_cases h3 : t2 < t1
    · have hc : t2 > kEpsilon ∧ (t1 < 0 ∨ t2 < t1) := ⟨h2, Or.inr h3⟩
      rw [if_pos h1, if_pos hc]
      exact ⟨h2, Or.inr rfl, fun _ => le_of_lt h3, fun _ => le_refl _⟩
    · have hc : ¬ (t2 > kEpsilon ∧ (t1 < 0 ∨ t2 < t1)) := by
        rintro ⟨_, h | h⟩
        · linarith
        · exact h3 h
      rw [if_pos h1, if_neg hc]
      exact ⟨h1, Or.inl rfl, fun _ => le_refl _, fun _ => not_lt.mp h3⟩
  · right
    have hc : ¬ (t2 > kEpsilon ∧ (t1 < 0 ∨ t2 < t1)) := fun h => h2 h.1
    rw [if_pos h1, if_neg hc]
    exact ⟨h1, Or.inl rfl, fun _ => le_refl _, fun h => absurd h h2⟩
  · right
    have hc : t2 > kEpsilon ∧ ((-1 : ℝ) < 0 ∨ t2 < -1) := ⟨h2, Or.inl (by norm_num)⟩
    rw [if_neg h1, if_pos hc]
    exact ⟨h2, Or.inr rfl, fun h => absurd h h1, fun _ => le_refl _⟩
  · left
    have hc : ¬ (t2 > kEpsilon ∧ ((-1 : ℝ) < 0 ∨ t2 < -1)) := fun h => h2 h.1
    rw [if_neg h1, if_neg hc]
    exact ⟨not_lt.mp h1, not_lt.mp h2, rfl⟩

theorem root_iff (p : InterceptionParams) (ha : coef_a p ≠ 0) (hd : 0 ≤ discriminant p)
    (t : ℝ) :
    coef_a p * t ^ 2 + coef_b p * t + coef_c p = 0 ↔ t = root_t1 p ∨ t = root_t2 p := by
  have hs : discrim (coef_a p) (coef_b p) (coef_c p) =
      Real.sqrt (discriminant p) * Real.sqrt (discriminant p) := by
    rw [Real.mul_self_sqrt hd]; unfold discrim discriminant; ring
  have := quadratic_eq_zero_iff ha hs t
  have e : coef_a p * t ^ 2 + coef_b p * t + coef_c p =
      coef_a p * (t * t) + coef_b p * t + coef_c p := by ring
  rw [e, this]
  unfold root_t1 root_t2
  exact Or.comm

theorem no_root (p : InterceptionParams) (hd : discriminant p < 0) (t : ℝ) :
    coef_a p * t ^ 2 + coef_b p * t + coef_c p ≠ 0 := by
  intro h
  have e : (2 * coef_a p * t + coef_b p) ^ 2 = discriminant p := by
    unfold discriminant; linear_combination 4 * coef_a p * h
  linarith [sq_nonneg (2 * coef_a p * t + coef_b p)]

/-- What `solve` does in the general-quadratic branch: either the quadratic has no
root above `kEpsilon` and the result is the impossible one, or the result is built
from the least root above `kEpsilon`. -/
theorem solve_quadratic_spec (p : InterceptionParams)
    (h : ¬ dist_sq p < kEpsilon * kEpsilon) (hs : ¬ p.hunter_speed < kEpsilon)
    (ha : ¬ |coef_a p| < kEpsilon) :
    ((¬ ∃ t, kEpsilon < t ∧ coef_a p * t ^ 2 + coef_b p * t + coef_c p = 0) ∧ solve p = {}) ∨
      (∃ t, IsLeast {t | kEpsilon < t ∧ coef_a p * t ^ 2 + coef_b p * t + coef_c p = 0} t ∧
        0 ≤ discriminant p ∧ t = pick_t_min (root_t1 p) (root_t2 p) ∧ solve p = finish p t) := by
  have he := kEpsilon_pos
  have ha0 : coef_a p ≠ 0 := by
    intro h0; apply ha; rw [h0, abs_zero]; exact he
  rw [solve_quadratic p h hs ha]
  by_cases hd : discriminant p < 0
  · left
    rw [if_pos hd]
    exact ⟨fun ⟨t, _, ht⟩ => no_root p hd t ht, rfl⟩
  · rw [if_neg hd]
    have hd0 : 0 ≤ discriminant p := not_lt.mp hd
    rcases pick_t_min_spec (root_t1 p) (root_t2 p) with ⟨h1, h2, hp⟩ | ⟨hgt, hmem, hl1, hl2⟩
    · left
      have hneg : pick_t_min (root_t1 p) (root_t2 p) < 0 := by rw [hp]; norm_num
      rw [if_pos hneg]
      refine ⟨?_, rfl⟩
      rintro ⟨t, ht, hroot⟩
      rcases (root_iff p ha0 hd0 t).mp hroot with e | e <;> rw [e] at ht <;> linarith
    · right
      have hneg : ¬ pick_t_min (root_t1 p) (root_t2 p) < 0 := by linarith
      rw [if_neg hneg]
      refine ⟨_, ⟨⟨hgt, (root_iff p ha0 hd0 _).mpr hmem⟩, ?_⟩, hd0, rfl, rfl⟩
      rintro t ⟨ht, hroot⟩
      rcases (root_iff p ha0 hd0 t).mp hroot with e | e
      · rw [e]; rw [e] at ht; exact hl1 ht
      · rw [e]; rw [e] at ht; exact hl2 ht

theorem disp_sq (p : InterceptionParams) (t : ℝ) :
    ((finish p t).intercept.x - p.hunter_pos.x) ^ 2 +
        ((finish p t).intercept.y - p.hunter_pos.y) ^ 2 =
      coef_a p * t ^ 2 + coef_b p * t + coef_c p + (p.hunter_speed * t) ^ 2 := by
  show (p.target_pos.x + vTx p * t - p.hunter_pos.x) ^ 2 +
      (p.target_pos.y + vTy p * t - p.hunter_pos.y) ^ 2 = _
  unfold coef_a coef_b coef_c dist_sq dx dy
  ring

/-- A successful result from a start that is not co-located comes from `finish`, either
through the linear branch or with the least root above `kEpsilon`. -/
theorem solve_success_finish (p : InterceptionParams)
    (h : ¬ dist_sq p < kEpsilon * kEpsilon) (hsucc : (solve p).success = true) :
    ¬ p.hunter_speed < kEpsilon ∧
      ((|coef_a p| < kEpsilon ∧ ¬ |coef_b p| < kEpsilon ∧
          solve p = finish p
            (if -coef_c p / coef_b p > kEpsilon then -coef_c p / coef_b p else -1)) ∨
        (¬ |coef_a p| < kEpsilon ∧ ∃ t,
          IsLeast {t | kEpsilon < t ∧ coef_a p * t ^ 2 + coef_b p * t + coef_c p = 0} t ∧
          0 ≤ discriminant p ∧ t = pick_t_min (root_t1 p) (root_t2 p) ∧
          solve p = finish p t)) := by
  have hs : ¬ p.hunter_speed < kEpsilon := by
    intro hs; rw [solve_immobile p h hs] at hsucc; exact absurd hsucc (by decide)
  refine ⟨hs, ?_⟩
  by_cases ha : |coef_a p| < kEpsilon
  · left
    by_cases hb : |coef_b p| < kEpsilon
    · rw [solve_linear_none p h hs ha hb] at hsucc; exact absurd hsucc (by decide)
    · exact ⟨ha, hb, solve_linear p h hs ha hb⟩
  · right
    rcases solve_quadratic_spec p h hs ha with ⟨_, hres⟩ | hres
    · rw [hres] at hsucc; exact absurd hsucc (by decide)
    · exact ⟨ha, hres⟩

theorem deg_to_rad_180 : deg_to_rad 180 = Real.pi := by
  unfold deg_to_rad; ring

theorem deg_to_rad_90 : deg_to_rad 90 = Real.pi / 2 := by
  unfold deg_to_rad; ring

theorem vTx_heading_zero (p : InterceptionParams) (h : p.target_heading_deg = 0) :
    vTx p = 0 := by
  unfold vTx nav_vx; rw [h, deg_to_rad_zero, Real.sin_zero, mul_zero]

theorem vTy_heading_zero (p : InterceptionParams) (h : p.target_heading_deg = 0) :
    vTy p = p.target_speed := by
  unfold vTy nav_vy; rw [h, deg_to_rad_zero, Real.cos_zero, mul_one]

/-! ### The heading computed by `finish` -/

theorem atan2_sin (y x : ℝ) : Real.sqrt (y ^ 2 + x ^ 2) * Real.sin (atan2 y x) = y := by
  have h := Complex.abs_mul_sin_arg ⟨x, y⟩
  rw [Complex.abs_apply, Complex.normSq_apply] at h
  have e : y ^ 2 + x ^ 2 = x * x + y * y := by ring
  rw [e]; exact h

theorem atan2_cos (y x : ℝ) : Real.sqrt (y ^ 2 + x ^ 2) * Real.cos (atan2 y x) = x := by
  have h := Complex.abs_mul_cos_arg ⟨x, y⟩
  rw [Complex.abs_apply, Complex.normSq_apply] at h
  have e : y ^ 2 + x ^ 2 = x * x + y * y := by ring
  rw [e]; exact h

theorem deg_to_rad_rad_to_deg (r : ℝ) : deg_to_rad (rad_to_deg r) = r := by
  unfold deg_to_rad rad_to_deg
  field_simp

theorem deg_to_rad_add_360 (d : ℝ) : deg_to_rad (d + 360) = deg_to_rad d + 2 * Real.pi := by
  unfold deg_to_rad; ring

/-- The heading of `finish`, converted back with `nav_vx`/`nav_vy` at the length of the
displacement, gives the displacement from the hunter to the intercept point. -/
theorem finish_heading (p : InterceptionParams) (t : ℝ) :
    (finish p t).intercept.x - p.hunter_pos.x =
        nav_vx (Real.sqrt (((finish p t).intercept.x - p.hunter_pos.x) ^ 2 +
          ((finish p t).intercept.y - p.hunter_pos.y) ^ 2)) (finish p t).heading_deg ∧
      (finish p t).intercept.y - p.hunter_pos.y =
        nav_vy (Real.sqrt (((finish p t).intercept.x - p.hunter_pos.x) ^ 2 +
          ((finish p t).intercept.y - p.hunter_pos.y) ^ 2)) (finish p t).heading_deg := by
  generalize hX : (finish p t).intercept.x - p.hunter_pos.x = X
  generalize hY : (finish p t).intercept.y - p.hunter_pos.y = Y
  have hh : (finish p t).heading_deg =
      if rad_to_deg (atan2 X Y) < 0 then rad_to_deg (atan2 X Y) + 360
      else rad_to_deg (atan2 X Y) := by
    rw [← hX, ← hY]; rfl
  rw [hh]
  unfold nav_vx nav_vy
  by_cases hneg : rad_to_deg (atan2 X Y) < 0
  · rw [if_pos hneg, deg_to_rad_add_360, deg_to_rad_rad_to_deg, Real.sin_add_two_pi,
      Real.cos_add_two_pi]
    exact ⟨(atan2_sin X Y).symm, (atan2_cos X Y).symm⟩
  · rw [if_neg hneg, deg_to_rad_rad_to_deg]
    exact ⟨(atan2_sin X Y).symm, (atan2_cos X Y).symm⟩

/-! ### The request `req_closing` -/

theorem vTx_req_closing : vTx req_closing = 0 := by
  unfold vTx nav_vx
  show (2 : ℝ) * Real.sin (deg_to_rad 180) = 0
  rw [deg_to_rad_180, Real.sin_pi, mul_zero]

theorem vTy_req_closing : vTy req_closing = -2 := by
  unfold vTy nav_vy
  show (2 : ℝ) * Real.cos (deg_to_rad 180) = -2
  rw [deg_to_rad_180, Real.cos_pi]; norm_num

theorem dist_sq_req_closing : dist_sq req_closing = 100 := by
  simp [dist_sq, dx, dy, req_closing]; norm_num

theorem coef_a_req_closing : coef_a req_closing = 3 := by
  unfold coef_a; rw [vTx_req_closing, vTy_req_closing]; simp only [req_closing]; norm_num

theorem coef_b_req_closing : coef_b req_closing = -40 := by
  unfold coef_b; rw [vTx_req_closing, vTy_req_closing]; simp only [dx, dy, req_closing]
  norm_num

theorem coef_c_req_closing : coef_c req_closing = 100 := dist_sq_req_closing

theorem discriminant_req_closing : discriminant req_closing = 400 := by
  unfold discriminant
  rw [coef_a_req_closing, coef_b_req_closing, coef_c_req_closing]; norm_num

theorem sqrt_400 : Real.sqrt 400 = 20 := by
  have : (400 : ℝ) = 20 ^ 2 := by norm_num
  rw [this, Real.sqrt_sq (by norm_num)]

theorem root_t1_req_closing : root_t1 req_closing = 10 / 3 := by
  unfold root_t1
  rw [discriminant_req_closing, coef_a_req_closing, coef_b_req_closing, sqrt_400]; norm_num

theorem root_t2_req_closing : root_t2 req_closing = 10 := by
  unfold root_t2
  rw [discriminant_req_closing, coef_a_req_closing, coef_b_req_closing, sqrt_400]; norm_num

theorem not_colocated_req_closing : kEpsilon * kEpsilon ≤ dist_sq req_closing := by
  rw [dist_sq_req_closing]; unfold kEpsilon; norm_num

theorem speed_req_closing : kEpsilon ≤ req_closing.hunter_speed := by
  show kEpsilon ≤ 1
  exact le_of_lt kEpsilon_lt_one

theorem abs_coef_a_req_closing : kEpsilon ≤ |coef_a req_closing| := by
  rw [coef_a_req_closing, abs_of_pos (by norm_num)]
  linarith [kEpsilon_lt_one]

theorem solve_req_closing : solve req_closing = finish req_closing (10 / 3) := by
  have hp : pick_t_min (10 / 3) 10 = 10 / 3 := by
    unfold pick_t_min kEpsilon; norm_num
  rw [solve_quadratic req_closing (not_lt.mpr not_colocated_req_closing)
    (not_lt.mpr speed_req_closing) (not_lt.mpr abs_coef_a_req_closing),
    discriminant_req_closing, root_t1_req_closing, root_t2_req_closing, hp,
    if_neg (by norm_num), if_neg (by norm_num)]

/-! ### Sign of the quadratic -/

/-- Cauchy–Schwarz for `Δ · v_target`: the coefficient `b` is at least
`-2 |Δ| |target_speed|`. -/
theorem coef_b_lower (p : InterceptionParams) :
    -(2 * (Real.sqrt (dist_sq p) * |p.target_speed|)) ≤ coef_b p := by
  have hD : 0 ≤ Real.sqrt (dist_sq p) := Real.sqrt_nonneg _
  have hD2 : Real.sqrt (dist_sq p) ^ 2 = dist_sq p := Real.sq_sqrt (dist_sq_nonneg p)
  have hT : 0 ≤ |p.target_speed| := abs_nonneg _
  have hT2 : |p.target_speed| ^ 2 = p.target_speed * p.target_speed := by
    rw [sq_abs]; ring
  have hv := vel_sq p
  have cs : (dx p * vTx p + dy p * vTy p) ^ 2 ≤
      (Real.sqrt (dist_sq p) * |p.target_speed|) ^ 2 := by
    have e : (Real.sqrt (dist_sq p) * |p.target_speed|) ^ 2 =
        (dx p * dx p + dy p * dy p) * (vTx p * vTx p + vTy p * vTy p) := by
      rw [mul_pow, hD2, hT2, hv]; rfl
    rw [e]
    nlinarith [sq_nonneg (dx p * vTy p - dy p * vTx p)]
  have hM : 0 ≤ Real.sqrt (dist_sq p) * |p.target_speed| := mul_nonneg hD hT
  have := abs_le_of_sq_le_sq' cs hM
  unfold coef_b
  linarith [this.1]

/-- When the hunter is faster by the margin of the claim, the quadratic is positive at
`kEpsilon`. -/
theorem quadratic_pos_at_eps (p : InterceptionParams) (hs0 : 0 ≤ p.hunter_speed)
    (hfar : kEpsilon * (p.hunter_speed + |p.target_speed|) < Real.sqrt (dist_sq p)) :
    0 < coef_a p * kEpsilon ^ 2 + coef_b p * kEpsilon + coef_c p := by
  have he := kEpsilon_pos
  have hD2 : Real.sqrt (dist_sq p) ^ 2 = dist_sq p := Real.sq_sqrt (dist_sq_nonneg p)
  have hT2 : |p.target_speed| ^ 2 = p.target_speed * p.target_speed := by
    rw [sq_abs]; ring
  have hb := coef_b_lower p
  have hbe : -(2 * (Real.sqrt (dist_sq p) * |p.target_speed|)) * kEpsilon ≤
      coef_b p * kEpsilon := mul_le_mul_of_nonneg_right hb (le_of_lt he)
  have h1 : 0 < Real.sqrt (dist_sq p) - kEpsilon * |p.target_speed| -
      kEpsilon * p.hunter_speed := by linarith
  have h2 : 0 < Real.sqrt (dist_sq p) - kEpsilon * |p.target_speed| +
      kEpsilon * p.hunter_speed := by
    have := mul_nonneg (le_of_lt he) hs0
    linarith
  have h3 := mul_pos h1 h2
  rw [coef_a_eq]
  unfold coef_c
  nlinarith

/-! ### Stationary target -/

theorem vTx_stationary (p : InterceptionParams) (h : p.target_speed = 0) : vTx p = 0 := by
  unfold vTx nav_vx; rw [h, zero_mul]

theorem vTy_stationary (p : InterceptionParams) (h : p.target_speed = 0) : vTy p = 0 := by
  unfold vTy nav_vy; rw [h, zero_mul]

/-- With a stationary target, a hunter speed whose square is at least `kEpsilon`, a start
that is not co-located and `|Δ| > ε · hunter_speed`, `solve` takes the general-quadratic
branch and accepts the time `|Δ| / hunter_speed`. -/
theorem solve_stationary (p : InterceptionParams) (hts : p.target_speed = 0)
    (hpos : 0 < p.hunter_speed) (ha : kEpsilon ≤ p.hunter_speed * p.hunter_speed)
    (hc : kEpsilon * kEpsilon ≤ dist_sq p)
    (hfar : kEpsilon * p.hunter_speed < Real.sqrt (dist_sq p)) :
    solve p = finish p (Real.sqrt (dist_sq p) / p.hunter_speed) := by
  have he := kEpsilon_pos
  have he1 := kEpsilon_lt_one
  have hD : 0 ≤ Real.sqrt (dist_sq p) := Real.sqrt_nonneg _
  have hD2 : Real.sqrt (dist_sq p) ^ 2 = dist_sq p := Real.sq_sqrt (dist_sq_nonneg p)
  have hs : ¬ p.hunter_speed < kEpsilon := by
    intro hlt
    have h1 : p.hunter_speed * p.hunter_speed ≤ kEpsilon * kEpsilon :=
      mul_le_mul (le_of_lt hlt) (le_of_lt hlt) (le_of_lt hpos) (le_of_lt he)
    nlinarith
  have hca : coef_a p = -(p.hunter_speed * p.hunter_speed) := by
    rw [coef_a_eq, hts]; ring
  have hcb : coef_b p = 0 := by
    unfold coef_b; rw [vTx_stationary p hts, vTy_stationary p hts]; ring
  have ha1 : ¬ |coef_a p| < kEpsilon := by
    rw [hca, abs_neg, abs_of_nonneg (by nlinarith)]; exact not_lt.mpr ha
  have hne : p.hunter_speed ≠ 0 := ne_of_gt hpos
  have hroot : coef_a p * (Real.sqrt (dist_sq p) / p.hunter_speed) ^ 2 +
      coef_b p * (Real.sqrt (dist_sq p) / p.hunter_speed) + coef_c p = 0 := by
    rw [hca, hcb, div_pow, hD2]; unfold coef_c; field_simp; ring
  have hgt : kEpsilon < Real.sqrt (dist_sq p) / p.hunter_speed := by
    rw [lt_div_iff₀ hpos]; exact hfar
  rcases solve_quadratic_spec p (not_lt.mpr hc) hs ha1 with ⟨hno, _⟩ | ⟨t, hleast, _, _, hres⟩
  · exact absurd ⟨_, hgt, hroot⟩ hno
  · rw [hres]
    congr 1
    have ht : 0 < t := lt_trans he hleast.1.1
    have hr := hleast.1.2
    rw [hca, hcb] at hr
    unfold coef_c at hr
    have hsq : (p.hunter_speed * t) ^ 2 = Real.sqrt (dist_sq p) ^ 2 := by
      rw [hD2]; linarith
    have hnn : 0 ≤ p.hunter_speed * t := le_of_lt (mul_pos hpos ht)
    have heq : p.hunter_speed * t = Real.sqrt (dist_sq p) := by
      rcases sq_eq_sq_iff_eq_or_eq_neg.mp hsq with h | h
      · exact h
      · have hz : Real.sqrt (dist_sq p) = 0 := by linarith
        rw [hz] at h; rw [hz]; linarith
    rw [eq_div_iff hne, mul_comm]; exact heq

/-! ### Scaling the positions -/

theorem dx_scale (k : ℝ) (p : InterceptionParams) : dx (scale_positions k p) = k * dx p := by
  simp only [dx, scale_positions]; ring

theorem dy_scale (k : ℝ) (p : InterceptionParams) : dy (scale_positions k p) = k * dy p := by
  simp only [dy, scale_positions]; ring

theorem dist_sq_scale (k : ℝ) (p : InterceptionParams) :
    dist_sq (scale_positions k p) = k ^ 2 * dist_sq p := by
  unfold dist_sq; rw [dx_scale, dy_scale]; ring

theorem coef_a_scale (k : ℝ) (p : InterceptionParams) :
    coef_a (scale_positions k p) = coef_a p := rfl

theorem coef_b_scale (k : ℝ) (p : InterceptionParams) :
    coef_b (scale_positions k p) = k * coef_b p := by
  unfold coef_b; rw [dx_scale, dy_scale]
  have hx : vTx (scale_positions k p) = vTx p := rfl
  have hy : vTy (scale_positions k p) = vTy p := rfl
  rw [hx, hy]; ring

theorem coef_c_scale (k : ℝ) (p : InterceptionParams) :
    coef_c (scale_positions k p) = k ^ 2 * coef_c p := dist_sq_scale k p

theorem discriminant_scale (k : ℝ) (p : InterceptionParams) :
    discriminant (scale_positions k p) = k ^ 2 * discriminant p := by
  unfold discriminant; rw [coef_a_scale, coef_b_scale, coef_c_scale]; ring

theorem sqrt_discriminant_scale (k : ℝ) (p : InterceptionParams) (hk : 0 < k) :
    Real.sqrt (discriminant (scale_positions k p)) = k * Real.sqrt (discriminant p) := by
  rw [discriminant_scale, Real.sqrt_mul (sq_nonneg k), Real.sqrt_sq (le_of_lt hk)]

theorem root_t1_scale (k : ℝ) (p : InterceptionParams) (hk : 0 < k) :
    root_t1 (scale_positions k p) = k * root_t1 p := by
  unfold root_t1; rw [sqrt_discriminant_scale k p hk, coef_a_scale, coef_b_scale]; ring

theorem root_t2_scale (k : ℝ) (p : InterceptionParams) (hk : 0 < k) :
    root_t2 (scale_positions k p) = k * root_t2 p := by
  unfold root_t2; rw [sqrt_discriminant_scale k p hk, coef_a_scale, coef_b_scale]; ring

theorem atan2_scale (k y x : ℝ) (hk : 0 < k) : atan2 (k * y) (k * x) = atan2 y x := by
  unfold atan2
  have e : (⟨k * x, k * y⟩ : ℂ) = (k : ℂ) * ⟨x, y⟩ := by
    apply Complex.ext <;> simp
  rw [e, Complex.arg_real_mul _ hk]

/-- Scaling the positions and the chosen time by `k > 0` scales time and distance of the
result of `finish` by `k` and keeps its heading. -/
theorem finish_scale (k : ℝ) (p : InterceptionParams) (t : ℝ) (hk : 0 < k) :
    (finish (scale_positions k p) (k * t)).success = true ∧
      (finish (scale_positions k p) (k * t)).time = k * (finish p t).time ∧
      (finish (scale_positions k p) (k * t)).distance = k * (finish p t).distance ∧
      (finish (scale_positions k p) (k * t)).heading_deg = (finish p t).heading_deg := by
  refine ⟨rfl, rfl, ?_, ?_⟩
  · show p.hunter_speed * (k * t) = k * (p.hunter_speed * t)
    ring
  · have hX : k * p.target_pos.x + vTx p * (k * t) - k * p.hunter_pos.x =
        k * (p.target_pos.x + vTx p * t - p.hunter_pos.x) := by ring
    have hY : k * p.target_pos.y + vTy p * (k * t) - k * p.hunter_pos.y =
        k * (p.target_pos.y + vTy p * t - p.hunter_pos.y) := by ring
    have hA : atan2 (k * p.target_pos.x + vTx p * (k * t) - k * p.hunter_pos.x)
        (k * p.target_pos.y + vTy p * (k * t) - k * p.hunter_pos.y) =
        atan2 (p.target_pos.x + vTx p * t - p.hunter_pos.x)
          (p.target_pos.y + vTy p * t - p.hunter_pos.y) := by
      rw [hX, hY, atan2_scale _ _ _ hk]
    show (if rad_to_deg (atan2 (k * p.target_pos.x + vTx p * (k * t) - k * p.hunter_pos.x)
          (k * p.target_pos.y + vTy p * (k * t) - k * p.hunter_pos.y)) < 0 then
        rad_to_deg (atan2 (k * p.target_pos.x + vTx p * (k * t) - k * p.hunter_pos.x)
          (k * p.target_pos.y + vTy p * (k * t) - k * p.hunter_pos.y)) + 360
      else rad_to_deg (atan2 (k * p.target_pos.x + vTx p * (k * t) - k * p.hunter_pos.x)
          (k * p.target_pos.y + vTy p * (k * t) - k * p.hunter_pos.y))) =
      (finish p t).heading_deg
    rw [hA]; rfl

/-- Scaling a request whose start and scaled start are both not co-located: when `solve`
succeeds with a time `t` such that `k·t > ε`, and `k·|b| ≥ ε` in the linear branch, and
no root `r ≤ ε` has `k·r > ε` in the general-quadratic branch, the scaled request
succeeds with time and distance multiplied by `k` and the same heading. -/
theorem scale_symmetry_not_colocated (k : ℝ) (p : InterceptionParams) (hk : 0 < k)
    (hc : kEpsilon * kEpsilon ≤ dist_sq p) (hck : kEpsilon * kEpsilon ≤ k ^ 2 * dist_sq p)
    (hsucc : (solve p).success = true) (htime : kEpsilon < k * (solve p).time)
    (hlin : |coef_a p| < kEpsilon → kEpsilon ≤ k * |coef_b p|)
    (hquad : kEpsilon ≤ |coef_a p| → ∀ r : ℝ,
      coef_a p * r ^ 2 + coef_b p * r + coef_c p = 0 → r ≤ kEpsilon → k * r ≤ kEpsilon) :
    (solve (scale_positions k p)).success = true ∧
      (solve (scale_positions k p)).time = k * (solve p).time ∧
      (solve (scale_positions k p)).distance = k * (solve p).distance ∧
      (solve (scale_positions k p)).heading_deg = (solve p).heading_deg := by
  have he := kEpsilon_pos
  have hck1 : ¬ dist_sq (scale_positions k p) < kEpsilon * kEpsilon := by
    rw [dist_sq_scale]; exact not_lt.mpr hck
  obtain ⟨hs, hcase⟩ := solve_success_finish p (not_lt.mpr hc) hsucc
  have hs1 : ¬ (scale_positions k p).hunter_speed < kEpsilon := hs
  rcases hcase with ⟨ha, hb, hres⟩ | ⟨ha, t, hleast, hd, hpick, hres⟩
  · have hb0 : coef_b p ≠ 0 := by
      intro h0; apply hb; rw [h0, abs_zero]; exact he
    have hl : -coef_c p / coef_b p > kEpsilon := by
      by_contra hl
      rw [hres, if_neg hl] at htime
      have : (finish p (-1)).time = -1 := rfl
      rw [this] at htime
      linarith
    rw [if_pos hl] at hres
    have hbk : ¬ |coef_b (scale_positions k p)| < kEpsilon := by
      rw [coef_b_scale, abs_mul, abs_of_pos hk]; exact not_lt.mpr (hlin ha)
    have htl : -coef_c (scale_positions k p) / coef_b (scale_positions k p) =
        k * (-coef_c p / coef_b p) := by
      rw [coef_c_scale, coef_b_scale]; field_simp; ring
    have hlk : k * (-coef_c p / coef_b p) > kEpsilon := by
      rw [hres] at htime; exact htime
    rw [solve_linear (scale_positions k p) hck1 hs1 ha hbk, htl, if_pos hlk, hres]
    exact finish_scale k p _ hk
  · have hdk : ¬ discriminant (scale_positions k p) < 0 := by
      rw [discriminant_scale]; exact not_lt.mpr (mul_nonneg (sq_nonneg k) hd)
    have ha0 : coef_a p ≠ 0 := by
      intro h0; apply ha; rw [h0, abs_zero]; exact he
    have htk : kEpsilon < k * t := by rw [hres] at htime; exact htime
    have hmem := (root_iff p ha0 hd t).mp hleast.1.2
    have hq := hquad (not_lt.mp ha)
    have hroot1 := (root_iff p ha0 hd (root_t1 p)).mpr (Or.inl rfl)
    have hroot2 := (root_iff p ha0 hd (root_t2 p)).mpr (Or.inr rfl)
    have hkey : pick_t_min (k * root_t1 p) (k * root_t2 p) = k * t := by
      rcases pick_t_min_spec (k * root_t1 p) (k * root_t2 p) with
        ⟨h1, h2, _⟩ | ⟨hgt, hor, hl1, hl2⟩
      · rcases hmem with e | e <;> rw [e] at htk <;> linarith
      · have hle : pick_t_min (k * root_t1 p) (k * root_t2 p) ≤ k * t := by
          rcases hmem with e | e
          · rw [e]; rw [e] at htk; exact hl1 htk
          · rw [e]; rw [e] at htk; exact hl2 htk
        have hge : k * t ≤ pick_t_min (k * root_t1 p) (k * root_t2 p) := by
          rcases hor with e | e
          · rw [e]; rw [e] at hgt
            have hr : kEpsilon < root_t1 p := by
              by_contra hn
              have := hq _ hroot1 (not_lt.mp hn)
              linarith
            exact mul_le_mul_of_nonneg_left (hleast.2 ⟨hr, hroot1⟩) (le_of_lt hk)
          · rw [e]; rw [e] at hgt
            have hr : kEpsilon < root_t2 p := by
              by_contra hn
              have := hq _ hroot2 (not_lt.mp hn)
              linarith
            exact mul_le_mul_of_nonneg_left (hleast.2 ⟨hr, hroot2⟩) (le_of_lt hk)
        exact le_antisymm hle hge
    have hnn : ¬ k * t < 0 := by linarith
    rw [solve_quadratic (scale_positions k p) hck1 hs1 ha, if_neg hdk, root_t1_scale k p hk,
      root_t2_scale k p hk, hkey, if_neg hnn, hres]
    exact finish_scale k p t hk

/-! ### The displacement handed to `atan2` -/

/-- The linear branch on `req_away`: `a = 0`, `b = 2`, `c = 1`; the time `-c / b = -1/2`
is not accepted and `finish` is reached with the initial value `-1`. -/
theorem solve_req_away : solve req_away = finish req_away (-1) := by
  have hx : vTx req_away = 0 := vTx_heading_zero req_away rfl
  have hy : vTy req_away = 1 := vTy_heading_zero req_away rfl
  have hdx : dx req_away = 0 := by simp [dx, req_away]
  have hdy : dy req_away = 1 := by simp [dy, req_away]
  have hc : coef_c req_away = 1 := by unfold coef_c dist_sq; rw [hdx, hdy]; norm_num
  have ha : coef_a req_away = 0 := by
    unfold coef_a; rw [hx, hy]; simp only [req_away]; norm_num
  have hb : coef_b req_away = 2 := by
    unfold coef_b; rw [hx, hy, hdx, hdy]; norm_num
  have he := kEpsilon_lt_one
  have hp := kEpsilon_pos
  have h1 : ¬ dist_sq req_away < kEpsilon * kEpsilon := by
    have : dist_sq req_away = 1 := hc
    rw [this]; nlinarith
  have h2 : ¬ req_away.hunter_speed < kEpsilon := by
    show ¬ (1 : ℝ) < kEpsilon
    linarith
  have h3 : |coef_a req_away| < kEpsilon := by rw [ha, abs_zero]; exact hp
  have h4 : ¬ |coef_b req_away| < kEpsilon := by
    rw [hb, abs_of_pos (by norm_num)]; linarith
  have hl : ¬ (-1 : ℝ) / 2 > kEpsilon := by
    have : (-1 : ℝ) / 2 < 0 := by norm_num
    intro h; linarith
  rw [solve_linear req_away h1 h2 h3 h4, hc, hb, if_neg hl]

/-- When the start is not co-located and `solve` succeeds with a non-negative time, that
is, with a time accepted by the linear or the general-quadratic branch, the displacement
from the hunter to the intercept point is not the zero vector. -/
theorem accepted_time_displacement_ne_zero (p : InterceptionParams)
    (hc : kEpsilon * kEpsilon ≤ dist_sq p) (hsucc : (solve p).success = true)
    (htime : 0 ≤ (solve p).time) :
    ¬ ((solve p).intercept.x - p.hunter_pos.x = 0 ∧
      (solve p).intercept.y - p.hunter_pos.y = 0) := by
  have he := kEpsilon_pos
  obtain ⟨hs, hcase⟩ := solve_success_finish p (not_lt.mpr hc) hsucc
  have hs1 : 0 < p.hunter_speed := lt_of_lt_of_le he (not_lt.mp hs)
  have key : ∀ t : ℝ, 0 < coef_a p * t ^ 2 + coef_b p * t + coef_c p + (p.hunter_speed * t) ^ 2 →
      ¬ ((finish p t).intercept.x - p.hunter_pos.x = 0 ∧
        (finish p t).intercept.y - p.hunter_pos.y = 0) := by
    rintro t hpos ⟨h1, h2⟩
    have := disp_sq p t
    rw [h1, h2] at this
    norm_num at this
    linarith
  rcases hcase with ⟨_, hb, hres⟩ | ⟨_, t, hleast, _, _, hres⟩
  · have hb0 : coef_b p ≠ 0 := by
      intro h0; apply hb; rw [h0, abs_zero]; exact he
    have hts : p.target_speed ≠ 0 := by
      intro h0; apply hb0
      unfold coef_b; rw [vTx_stationary p h0, vTy_stationary p h0]; ring
    by_cases hl : -coef_c p / coef_b p > kEpsilon
    · rw [if_pos hl] at hres
      rw [hres]
      apply key
      have ht : 0 < -coef_c p / coef_b p := lt_trans he hl
      have hlin : coef_b p * (-coef_c p / coef_b p) + coef_c p = 0 := by
        field_simp; ring
      have hsum : coef_a p * (-coef_c p / coef_b p) ^ 2 +
          (p.hunter_speed * (-coef_c p / coef_b p)) ^ 2 =
          (p.target_speed * (-coef_c p / coef_b p)) ^ 2 := by
        rw [coef_a_eq]; ring
      have hpos : 0 < (p.target_speed * (-coef_c p / coef_b p)) ^ 2 :=
        lt_of_le_of_ne (sq_nonneg _)
          (Ne.symm (pow_ne_zero 2 (mul_ne_zero hts (ne_of_gt ht))))
      linarith
    · rw [hres, if_neg hl] at htime
      have : (finish p (-1)).time = -1 := rfl
      rw [this] at htime
      exact absurd htime (by norm_num)
  · rw [hres]
    apply key
    have ht : 0 < t := lt_trans he hleast.1.1
    have := pow_pos (mul_pos hs1 ht) 2
    linarith [hleast.1.2]

/-! ## Claims -/

/-- C1. In the general-quadratic branch (start not co-located, hunter speed at least
`kEpsilon`, `|a|` at least `kEpsilon`): when the quadratic `a t² + b t + c` has a real
root above `kEpsilon`, `solve` succeeds and its time is the least such root; `solve`
fails exactly when there is no such root; and when both roots are real and exceed
`kEpsilon`, the time is the smaller of the two. -/
theorem C1_least_root (p : InterceptionParams)
    (hc : kEpsilon * kEpsilon ≤ dist_sq p) (hs : kEpsilon ≤ p.hunter_speed)
    (ha : kEpsilon ≤ |coef_a p|) :
    ((∃ t, kEpsilon < t ∧ coef_a p * t ^ 2 + coef_b p * t + coef_c p = 0) →
        (solve p).success = true ∧
        IsLeast {t | kEpsilon < t ∧ coef_a p * t ^ 2 + coef_b p * t + coef_c p = 0}
          (solve p).time) ∧
      ((solve p).success = false ↔
        ¬ ∃ t, kEpsilon < t ∧ coef_a p * t ^ 2 + coef_b p * t + coef_c p = 0) ∧
      (0 ≤ discriminant p → kEpsilon < root_t1 p → kEpsilon < root_t2 p →
        (solve p).success = true ∧ (solve p).time = min (root_t1 p) (root_t2 p)) := by
  have ha0 : coef_a p ≠ 0 := by
    intro h0; rw [h0, abs_zero] at ha; linarith [kEpsilon_pos]
  rcases solve_quadratic_spec p (not_lt.mpr hc) (not_lt.mpr hs) (not_lt.mpr ha) with
    ⟨hno, hres⟩ | ⟨t, hleast, hd, hpick, hres⟩
  · rw [hres]
    refine ⟨fun hex => absurd hex hno, ⟨fun _ => hno, fun _ => rfl⟩, ?_⟩
    intro hd h1 _
    exact absurd ⟨root_t1 p, h1, (root_iff p ha0 hd _).mpr (Or.inl rfl)⟩ hno
  · rw [hres]
    have hex : ∃ t, kEpsilon < t ∧ coef_a p * t ^ 2 + coef_b p * t + coef_c p = 0 :=
      ⟨t, hleast.1⟩
    refine ⟨fun _ => ⟨rfl, hleast⟩, ⟨fun hf => ?_, fun hn => absurd hex hn⟩, ?_⟩
    · exact absurd hf (by simp [finish])
    · intro _ h1 h2
      refine ⟨rfl, ?_⟩
      show t = min (root_t1 p) (root_t2 p)
      have hm1 : t ≤ root_t1 p := hleast.2 ⟨h1, (root_iff p ha0 hd _).mpr (Or.inl rfl)⟩
      have hm2 : t ≤ root_t2 p := hleast.2 ⟨h2, (root_iff p ha0 hd _).mpr (Or.inr rfl)⟩
      rcases (root_iff p ha0 hd t).mp hleast.1.2 with e | e
      · rw [e] at hm2; rw [e, min_eq_left hm2]
      · rw [e] at hm1; rw [e, min_eq_right hm1]

/-- C1 on `req_closing`, where the roots are 10/3 and 10: `solve` succeeds with time
10/3. -/
theorem C1_least_root_witness :
    kEpsilon * kEpsilon ≤ dist_sq req_closing ∧ kEpsilon ≤ req_closing.hunter_speed ∧
      kEpsilon ≤ |coef_a req_closing| ∧
      (solve req_closing).success = true ∧ (solve req_closing).time = 10 / 3 := by
  have h := (C1_least_root req_closing not_colocated_req_closing speed_req_closing
    abs_coef_a_req_closing).2.2
  rw [discriminant_req_closing, root_t1_req_closing, root_t2_req_closing] at h
  have he := kEpsilon_lt_one
  have h2 := h (by norm_num) (by linarith) (by linarith)
  rw [min_eq_left (by norm_num)] at h2
  exact ⟨not_colocated_req_closing, speed_req_closing, abs_coef_a_req_closing, h2⟩

/-- The linear branch on `req_slow`: `a = 3e-10`, `b = -4e-5`, `c = 1`, so the time is
`-c / b = 25000`. -/
theorem solve_req_slow : solve req_slow = finish req_slow 25000 := by
  have hx : vTx req_slow = 0 := vTx_heading_zero req_slow rfl
  have hy : vTy req_slow = 2e-5 := vTy_heading_zero req_slow rfl
  have hdx : dx req_slow = 0 := by simp [dx, req_slow]
  have hdy : dy req_slow = -1 := by simp [dy, req_slow]
  have hc : coef_c req_slow = 1 := by unfold coef_c dist_sq; rw [hdx, hdy]; norm_num
  have ha : coef_a req_slow = 3e-10 := by
    unfold coef_a; rw [hx, hy]; simp only [req_slow]; norm_num
  have hb : coef_b req_slow = -4e-5 := by
    unfold coef_b; rw [hx, hy, hdx, hdy]; norm_num
  have h1 : ¬ dist_sq req_slow < kEpsilon * kEpsilon := by
    have : dist_sq req_slow = 1 := hc
    rw [this]; unfold kEpsilon; norm_num
  have h2 : ¬ req_slow.hunter_speed < kEpsilon := by
    simp only [req_slow]; unfold kEpsilon; norm_num
  have h3 : |coef_a req_slow| < kEpsilon := by
    rw [ha]; unfold kEpsilon; rw [abs_of_pos (by norm_num)]; norm_num
  have h4 : ¬ |coef_b req_slow| < kEpsilon := by
    rw [hb]; unfold kEpsilon; rw [abs_of_neg (by norm_num)]; norm_num
  rw [solve_linear req_slow h1 h2 h3 h4, hc, hb]
  have e : (-1 : ℝ) / -4e-5 = 25000 := by norm_num
  rw [e, if_pos (by unfold kEpsilon; norm_num)]

/-- C2 (as stated) fails on `req_slow`: the start is not co-located and `solve` succeeds
through the linear branch, but the intercept point is at distance 1/2 from the hunter
while `hunter_speed × time` is 1/4. -/
theorem C2_linear_branch_counterexample :
    kEpsilon * kEpsilon ≤ dist_sq req_slow ∧ (solve req_slow).success = true ∧
      Real.sqrt (((solve req_slow).intercept.x - req_slow.hunter_pos.x) ^ 2 +
          ((solve req_slow).intercept.y - req_slow.hunter_pos.y) ^ 2) ≠
        req_slow.hunter_speed * (solve req_slow).time := by
  have hy : vTy req_slow = 2e-5 := vTy_heading_zero req_slow rfl
  refine ⟨?_, ?_, ?_⟩
  · have : dist_sq req_slow = 1 := by simp [dist_sq, dx, dy, req_slow]
    rw [this]; unfold kEpsilon; norm_num
  · rw [solve_req_slow]; rfl
  · rw [solve_req_slow]
    intro h
    have h2 := congrArg (fun v => v ^ 2) h
    simp only at h2
    rw [Real.sq_sqrt (by positivity), disp_sq] at h2
    have hsp : req_slow.hunter_speed = 1e-5 := rfl
    have ht : (finish req_slow 25000).time = 25000 := rfl
    have hc : coef_c req_slow = 1 := by simp [coef_c, dist_sq, dx, dy, req_slow]
    have ha : coef_a req_slow = 3e-10 := by
      unfold coef_a; rw [vTx_heading_zero req_slow rfl, hy]; simp only [req_slow]; norm_num
    have hb : coef_b req_slow = -4e-5 := by
      unfold coef_b; rw [vTx_heading_zero req_slow rfl, hy]
      simp only [dx, dy, req_slow]; norm_num
    rw [hsp, ht, ha, hb, hc] at h2
    norm_num at h2

/-- C2, amended. For every request whose start is not co-located and on which `solve`
succeeds, the intercept point is `target_pos + time·(vTx, vTy)`; and when `|a|` is at
least `kEpsilon`, or `a = 0` and the returned time is non-negative, the straight-line
distance from the hunter position to the intercept point is `hunter_speed × time`. -/
theorem C2_interception_amended (p : InterceptionParams)
    (hc : kEpsilon * kEpsilon ≤ dist_sq p) (hsucc : (solve p).success = true) :
    (solve p).intercept =
        ⟨p.target_pos.x + vTx p * (solve p).time, p.target_pos.y + vTy p * (solve p).time⟩ ∧
      ((kEpsilon ≤ |coef_a p| ∨ (coef_a p = 0 ∧ 0 ≤ (solve p).time)) →
        Real.sqrt (((solve p).intercept.x - p.hunter_pos.x) ^ 2 +
            ((solve p).intercept.y - p.hunter_pos.y) ^ 2) =
          p.hunter_speed * (solve p).time) := by
  have he := kEpsilon_pos
  obtain ⟨hs, hcase⟩ := solve_success_finish p (not_lt.mpr hc) hsucc
  have hs1 : kEpsilon ≤ p.hunter_speed := not_lt.mp hs
  have key : ∀ t : ℝ, 0 ≤ t → coef_a p * t ^ 2 + coef_b p * t + coef_c p = 0 →
      Real.sqrt (((finish p t).intercept.x - p.hunter_pos.x) ^ 2 +
          ((finish p t).intercept.y - p.hunter_pos.y) ^ 2) =
        p.hunter_speed * (finish p t).time := by
    intro t ht hroot
    rw [disp_sq, hroot, zero_add]
    exact Real.sqrt_sq (mul_nonneg (by linarith) ht)
  rcases hcase with ⟨ha, hb, hres⟩ | ⟨ha, t, hleast, _, _, hres⟩
  · rw [hres]
    refine ⟨rfl, ?_⟩
    rintro (hbig | ⟨ha0, htime⟩)
    · exact absurd ha (not_lt.mpr hbig)
    · have hb0 : coef_b p ≠ 0 := by
        intro h0; apply hb; rw [h0, abs_zero]; exact he
      by_cases hl : -coef_c p / coef_b p > kEpsilon
      · rw [if_pos hl]
        apply key _ (by linarith)
        rw [ha0]; field_simp; ring
      · rw [if_neg hl] at htime
        have : (finish p (-1)).time = -1 := rfl
        rw [this] at htime
        exact absurd htime (by norm_num)
  · rw [hres]
    exact ⟨rfl, fun _ => key t (by linarith [hleast.1.1]) hleast.1.2⟩

/-- C2 (amended) on `req_closing`: the intercept point is at distance
`hunter_speed × time` from the hunter. -/
theorem C2_interception_amended_witness :
    kEpsilon * kEpsilon ≤ dist_sq req_closing ∧ (solve req_closing).success = true ∧
      kEpsilon ≤ |coef_a req_closing| ∧
      Real.sqrt (((solve req_closing).intercept.x - req_closing.hunter_pos.x) ^ 2 +
          ((solve req_closing).intercept.y - req_closing.hunter_pos.y) ^ 2) =
        req_closing.hunter_speed * (solve req_closing).time :=
  have hsucc : (solve req_closing).success = true := by rw [solve_req_closing]; rfl
  ⟨not_colocated_req_closing, hsucc, abs_coef_a_req_closing,
    (C2_interception_amended req_closing not_colocated_req_closing hsucc).2
      (Or.inl abs_coef_a_req_closing)⟩

/-- C3. The heading returned by `solve` follows the convention of `nav_vx`/`nav_vy`:
for every request with a start that is not co-located on which `solve` succeeds, with
`L` the length of `intercept − hunter_pos`, the east component of that displacement is
`nav_vx L heading_deg` and its north component is `nav_vy L heading_deg`. -/
theorem C3_heading_convention (p : InterceptionParams)
    (hc : kEpsilon * kEpsilon ≤ dist_sq p) (hsucc : (solve p).success = true) :
    (solve p).intercept.x - p.hunter_pos.x =
        nav_vx (Real.sqrt (((solve p).intercept.x - p.hunter_pos.x) ^ 2 +
          ((solve p).intercept.y - p.hunter_pos.y) ^ 2)) (solve p).heading_deg ∧
      (solve p).intercept.y - p.hunter_pos.y =
        nav_vy (Real.sqrt (((solve p).intercept.x - p.hunter_pos.x) ^ 2 +
          ((solve p).intercept.y - p.hunter_pos.y) ^ 2)) (solve p).heading_deg := by
  obtain ⟨_, hcase⟩ := solve_success_finish p (not_lt.mpr hc) hsucc
  rcases hcase with ⟨_, _, hres⟩ | ⟨_, t, _, _, _, hres⟩
  · rw [hres]; exact finish_heading p _
  · rw [hres]; exact finish_heading p t

/-- C3 on `req_closing`. -/
theorem C3_heading_convention_witness :
    kEpsilon * kEpsilon ≤ dist_sq req_closing ∧ (solve req_closing).success = true ∧
      (solve req_closing).intercept.x - req_closing.hunter_pos.x =
        nav_vx (Real.sqrt (((solve req_closing).intercept.x - req_closing.hunter_pos.x) ^ 2 +
          ((solve req_closing).intercept.y - req_closing.hunter_pos.y) ^ 2))
          (solve req_closing).heading_deg ∧
      (solve req_closing).intercept.y - req_closing.hunter_pos.y =
        nav_vy (Real.sqrt (((solve req_closing).intercept.x - req_closing.hunter_pos.x) ^ 2 +
          ((solve req_closing).intercept.y - req_closing.hunter_pos.y) ^ 2))
          (solve req_closing).heading_deg :=
  have hsucc : (solve req_closing).success = true := by rw [solve_req_closing]; rfl
  ⟨not_colocated_req_closing, hsucc,
    C3_heading_convention req_closing not_colocated_req_closing hsucc⟩

/-- C4 fails on `req_away` (equal speeds, target moving straight away): the linear
branch computes `-c / b = -1/2`, does not accept it, and `solve` still returns a
successful result, with the initial value `-1` as time and distance `-1`. -/
theorem C4_negative_time_on_req_away :
    (solve req_away).success = true ∧ (solve req_away).time = -1 ∧
      (solve req_away).distance = -1 ∧ (solve req_away).heading_deg = 0 ∧
      (solve req_away).intercept = req_away.hunter_pos := by
  have hx : vTx req_away = 0 := vTx_heading_zero req_away rfl
  have hy : vTy req_away = 1 := vTy_heading_zero req_away rfl
  have hdx : dx req_away = 0 := by simp [dx, req_away]
  have hdy : dy req_away = 1 := by simp [dy, req_away]
  have hc : coef_c req_away = 1 := by unfold coef_c dist_sq; rw [hdx, hdy]; norm_num
  have ha : coef_a req_away = 0 := by
    unfold coef_a; rw [hx, hy]; simp only [req_away]; norm_num
  have hb : coef_b req_away = 2 := by
    unfold coef_b; rw [hx, hy, hdx, hdy]; norm_num
  have he := kEpsilon_lt_one
  have hp := kEpsilon_pos
  have h1 : ¬ dist_sq req_away < kEpsilon * kEpsilon := by
    have : dist_sq req_away = 1 := hc
    rw [this]; nlinarith
  have h2 : ¬ req_away.hunter_speed < kEpsilon := by
    show ¬ (1 : ℝ) < kEpsilon
    linarith
  have h3 : |coef_a req_away| < kEpsilon := by rw [ha, abs_zero]; exact hp
  have h4 : ¬ |coef_b req_away| < kEpsilon := by
    rw [hb, abs_of_pos (by norm_num)]; linarith
  have hl : ¬ (-1 : ℝ) / 2 > kEpsilon := by
    have : (-1 : ℝ) / 2 < 0 := by norm_num
    intro h; linarith
  have hres : solve req_away = finish req_away (-1) := by
    rw [solve_linear req_away h1 h2 h3 h4, hc, hb, if_neg hl]
  rw [hres]
  have hix : (finish req_away (-1)).intercept.x = 0 := by
    show (0 : ℝ) + vTx req_away * -1 = 0
    rw [hx]; norm_num
  have hiy : (finish req_away (-1)).intercept.y = 0 := by
    show (1 : ℝ) + vTy req_away * -1 = 0
    rw [hy]; norm_num
  refine ⟨rfl, rfl, ?_, ?_, ?_⟩
  · show (1 : ℝ) * -1 = -1
    norm_num
  · have hh : (finish req_away (-1)).heading_deg =
        if rad_to_deg (atan2 ((finish req_away (-1)).intercept.x - 0)
            ((finish req_away (-1)).intercept.y - 0)) < 0 then
          rad_to_deg (atan2 ((finish req_away (-1)).intercept.x - 0)
            ((finish req_away (-1)).intercept.y - 0)) + 360
        else rad_to_deg (atan2 ((finish req_away (-1)).intercept.x - 0)
            ((finish req_away (-1)).intercept.y - 0)) := rfl
    rw [hh, hix, hiy, sub_zero, atan2_zero_zero]
    simp [rad_to_deg]
  · have e : (finish req_away (-1)).intercept =
        ⟨(finish req_away (-1)).intercept.x, (finish req_away (-1)).intercept.y⟩ := rfl
    rw [e, hix, hiy]; rfl

/-- C5 (as stated) fails on `req_slow_hunter`: the hunter speed 1e-5 is positive and the
target does not move, but `a = -1e-10` has `|a| < ε` and `b = 0`, so `solve` fails. -/
theorem C5_slow_hunter_counterexample :
    0 < req_slow_hunter.hunter_speed ∧ req_slow_hunter.target_speed = 0 ∧
      (solve req_slow_hunter).success = false := by
  refine ⟨?_, rfl, ?_⟩
  · show (0 : ℝ) < 1e-5
    norm_num
  · have h1 : ¬ dist_sq req_slow_hunter < kEpsilon * kEpsilon := by
      simp only [dist_sq, dx, dy, req_slow_hunter]; unfold kEpsilon; norm_num
    have h2 : ¬ req_slow_hunter.hunter_speed < kEpsilon := by
      simp only [req_slow_hunter]; unfold kEpsilon; norm_num
    have h3 : |coef_a req_slow_hunter| < kEpsilon := by
      rw [coef_a_eq]; simp only [req_slow_hunter]; unfold kEpsilon
      rw [abs_of_neg (by norm_num)]; norm_num
    have h4 : |coef_b req_slow_hunter| < kEpsilon := by
      unfold coef_b
      rw [vTx_stationary req_slow_hunter rfl, vTy_stationary req_slow_hunter rfl]
      simp only [mul_zero, add_zero, abs_zero]
      exact kEpsilon_pos
    rw [solve_linear_none req_slow_hunter h1 h2 h3 h4]

/-- C5, amended. For every request with `hunter_speed > 0` and `target_speed = 0` in
which either the target starts exactly at the hunter position, or
`hunter_speed² ≥ ε`, `|Δ|² ≥ ε²` and `|Δ| > ε · hunter_speed`: `solve` succeeds with
time `|Δ| / hunter_speed` and intercept point `target_pos`. -/
theorem C5_stationary_target_amended (p : InterceptionParams) (hpos : 0 < p.hunter_speed)
    (hts : p.target_speed = 0)
    (hcond : p.target_pos = p.hunter_pos ∨
      (kEpsilon ≤ p.hunter_speed * p.hunter_speed ∧ kEpsilon * kEpsilon ≤ dist_sq p ∧
        kEpsilon * p.hunter_speed < Real.sqrt (dist_sq p))) :
    (solve p).success = true ∧
      (solve p).time = Real.sqrt (dist_sq p) / p.hunter_speed ∧
      (solve p).intercept = p.target_pos := by
  rcases hcond with heq | ⟨ha, hc, hfar⟩
  · have hz : dist_sq p = 0 := by simp [dist_sq, dx, dy, heq]
    have h : dist_sq p < kEpsilon * kEpsilon := by
      rw [hz]; exact mul_pos kEpsilon_pos kEpsilon_pos
    rw [solve_colocated p h, hz, Real.sqrt_zero, zero_div]
    exact ⟨rfl, rfl, heq.symm⟩
  · rw [solve_stationary p hts hpos ha hc hfar]
    refine ⟨rfl, rfl, ?_⟩
    show (⟨p.target_pos.x + vTx p * _, p.target_pos.y + vTy p * _⟩ : Point2D) = p.target_pos
    rw [vTx_stationary p hts, vTy_stationary p hts, zero_mul, add_zero, add_zero]

/-- C5 (amended) on `req_still`: hunter speed 2, stationary target at distance 5. -/
theorem C5_stationary_target_amended_witness :
    (solve req_still).success = true ∧
      (solve req_still).time = Real.sqrt (dist_sq req_still) / 2 ∧
      (solve req_still).intercept = ⟨3, 4⟩ := by
  have hd : dist_sq req_still = 5 ^ 2 := by
    simp only [dist_sq, dx, dy, req_still]; norm_num
  apply C5_stationary_target_amended req_still
  · show (0 : ℝ) < 2
    norm_num
  · rfl
  · right
    refine ⟨?_, ?_, ?_⟩
    · simp only [req_still]; unfold kEpsilon; norm_num
    · rw [hd]; unfold kEpsilon; norm_num
    · rw [hd, Real.sqrt_sq (by norm_num)]
      simp only [req_still]; unfold kEpsilon; norm_num

/-- C6 (as stated) fails on `req_unit` with `k = 1e-10`: `solve` succeeds with time 1,
but the scaled request has the target 1e-10 from the hunter, is treated as co-located,
and gets time 0 instead of 1e-10. -/
theorem C6_small_scale_counterexample :
    (0 : ℝ) < 1e-10 ∧ (solve req_unit).success = true ∧
      (solve (scale_positions 1e-10 req_unit)).time ≠ 1e-10 * (solve req_unit).time := by
  have hd : dist_sq req_unit = 1 := by
    simp only [dist_sq, dx, dy, req_unit]; norm_num
  have hres : solve req_unit = finish req_unit (Real.sqrt (dist_sq req_unit) / 1) := by
    apply solve_stationary req_unit rfl
    · show (0 : ℝ) < 1
      norm_num
    · simp only [req_unit]; unfold kEpsilon; norm_num
    · rw [hd]; unfold kEpsilon; norm_num
    · rw [hd, Real.sqrt_one]; simp only [req_unit]; unfold kEpsilon; norm_num
  rw [hd, Real.sqrt_one] at hres
  have hk : dist_sq (scale_positions 1e-10 req_unit) < kEpsilon * kEpsilon := by
    rw [dist_sq_scale, hd]; unfold kEpsilon; norm_num
  refine ⟨by norm_num, ?_, ?_⟩
  · rw [hres]; rfl
  · rw [solve_colocated _ hk, hres]
    show (0 : ℝ) ≠ 1e-10 * (1 / 1)
    norm_num

/-- C6, amended. Symmetry under uniform scale as long as no `ε` test changes its outcome:
for every `k > 0` and every request on which `solve` succeeds with time `t`, distance `d`
and heading `h`, such that either the start and the scaled start are both co-located
(`|Δ|² < ε²` and `k²|Δ|² < ε²`), or `|Δ|² ≥ ε²`, `k²|Δ|² ≥ ε²`, `k·t > ε`, and
`k·|b| ≥ ε` when `|a| < ε`, and no root `r ≤ ε` of `a r² + b r + c` has `k·r > ε` when
`|a| ≥ ε`: `solve` on the request with both positions multiplied by `k` succeeds with
time `k·t`, distance `k·d` and heading `h`. -/
theorem C6_scale_symmetry_amended (k : ℝ) (p : InterceptionParams) (hk : 0 < k)
    (hsucc : (solve p).success = true)
    (hcond : (dist_sq p < kEpsilon * kEpsilon ∧ k ^ 2 * dist_sq p < kEpsilon * kEpsilon) ∨
      (kEpsilon * kEpsilon ≤ dist_sq p ∧ kEpsilon * kEpsilon ≤ k ^ 2 * dist_sq p ∧
        kEpsilon < k * (solve p).time ∧
        (|coef_a p| < kEpsilon → kEpsilon ≤ k * |coef_b p|) ∧
        (kEpsilon ≤ |coef_a p| → ∀ r : ℝ,
          coef_a p * r ^ 2 + coef_b p * r + coef_c p = 0 → r ≤ kEpsilon →
            k * r ≤ kEpsilon))) :
    (solve (scale_positions k p)).success = true ∧
      (solve (scale_positions k p)).time = k * (solve p).time ∧
      (solve (scale_positions k p)).distance = k * (solve p).distance ∧
      (solve (scale_positions k p)).heading_deg = (solve p).heading_deg := by
  rcases hcond with ⟨hc, hck⟩ | ⟨hc, hck, htime, hlin, hquad⟩
  · have hck1 : dist_sq (scale_positions k p) < kEpsilon * kEpsilon := by
      rw [dist_sq_scale]; exact hck
    rw [solve_colocated p hc, solve_colocated _ hck1]
    exact ⟨rfl, (mul_zero k).symm, (mul_zero k).symm, rfl⟩
  · exact scale_symmetry_not_colocated k p hk hc hck hsucc htime hlin hquad

/-- C6 (amended) on `req_still` with `k = 2` (neither start co-located) and on `req_near`
with `k = 1/2` (both starts co-located). -/
theorem C6_scale_symmetry_amended_witness :
    ((solve (scale_positions 2 req_still)).success = true ∧
      (solve (scale_positions 2 req_still)).time = 2 * (solve req_still).time ∧
      (solve (scale_positions 2 req_still)).distance = 2 * (solve req_still).distance ∧
      (solve (scale_positions 2 req_still)).heading_deg = (solve req_still).heading_deg) ∧
    ((solve (scale_positions (1 / 2) req_near)).success = true ∧
      (solve (scale_positions (1 / 2) req_near)).time = 1 / 2 * (solve req_near).time ∧
      (solve (scale_positions (1 / 2) req_near)).distance =
        1 / 2 * (solve req_near).distance ∧
      (solve (scale_positions (1 / 2) req_near)).heading_deg =
        (solve req_near).heading_deg) := by
  have he := kEpsilon_pos
  have he1 := kEpsilon_lt_one
  have hd : dist_sq req_still = 5 ^ 2 := by
    simp only [dist_sq, dx, dy, req_still]; norm_num
  have hsp : req_still.hunter_speed = 2 := rfl
  have hres : solve req_still = finish req_still (Real.sqrt (dist_sq req_still) / 2) := by
    apply solve_stationary req_still rfl
    · rw [hsp]; norm_num
    · rw [hsp]; linarith
    · rw [hd]; nlinarith
    · rw [hd, Real.sqrt_sq (by norm_num), hsp]; linarith
  rw [hd, Real.sqrt_sq (by norm_num)] at hres
  have hca : coef_a req_still = -4 := by
    rw [coef_a_eq]; simp only [req_still]; norm_num
  have hcb : coef_b req_still = 0 := by
    unfold coef_b
    rw [vTx_stationary req_still rfl, vTy_stationary req_still rfl]; ring
  have hcc : coef_c req_still = 25 := by
    unfold coef_c; rw [hd]; norm_num
  have hn : dist_sq req_near < kEpsilon * kEpsilon := by
    simp only [dist_sq, dx, dy, req_near]; unfold kEpsilon; norm_num
  have hn2 : (1 / 2 : ℝ) ^ 2 * dist_sq req_near < kEpsilon * kEpsilon := by
    simp only [dist_sq, dx, dy, req_near]; unfold kEpsilon; norm_num
  constructor
  · apply C6_scale_symmetry_amended 2 req_still (by norm_num)
    · rw [hres]; rfl
    · right
      refine ⟨?_, ?_, ?_, ?_, ?_⟩
      · rw [hd]; nlinarith
      · rw [hd]; nlinarith
      · rw [hres]
        show kEpsilon < 2 * (5 / 2)
        linarith
      · intro h
        rw [hca, abs_of_neg (by norm_num)] at h
        linarith
      · intro _ r hr hle
        rw [hca, hcb, hcc] at hr
        nlinarith
  · apply C6_scale_symmetry_amended (1 / 2) req_near (by norm_num)
    · rw [solve_colocated req_near hn]
    · exact Or.inl ⟨hn, hn2⟩

/-- C7 (as stated) fails on `req_near`: the hunter does not move and the target is at a
different position, 1e-10 away, yet the co-located pre-check makes `solve` succeed. -/
theorem C7_near_target_counterexample :
    req_near.hunter_speed = 0 ∧ req_near.target_pos ≠ req_near.hunter_pos ∧
      (solve req_near).success = true := by
  refine ⟨rfl, ?_, ?_⟩
  · intro h
    have hx := congrArg Point2D.x h
    have hx2 : (1e-10 : ℝ) = 0 := hx
    norm_num at hx2
  · have hd : dist_sq req_near < kEpsilon * kEpsilon := by
      simp only [dist_sq, dx, dy, req_near]; unfold kEpsilon; norm_num
    rw [solve_colocated req_near hd]

/-- C7, amended. Immobile hunter, target displaced by at least `kEpsilon`: for every
request with `hunter_speed = 0` and `|Δ|² ≥ ε²` (any target speed and heading), `solve`
fails. -/
theorem C7_immobile_hunter_amended (p : InterceptionParams) (hs : p.hunter_speed = 0)
    (hc : kEpsilon * kEpsilon ≤ dist_sq p) : (solve p).success = false := by
  have h : p.hunter_speed < kEpsilon := by rw [hs]; exact kEpsilon_pos
  rw [solve_immobile p (not_lt.mpr hc) h]

/-- C7 (amended) on an immobile hunter at the origin and a target at (3, 4) with
speed 1, heading 20°. -/
theorem C7_immobile_hunter_amended_witness :
    (⟨⟨0, 0⟩, 0, ⟨3, 4⟩, 1, 20⟩ : InterceptionParams).hunter_speed = 0 ∧
      kEpsilon * kEpsilon ≤ dist_sq ⟨⟨0, 0⟩, 0, ⟨3, 4⟩, 1, 20⟩ ∧
      (solve ⟨⟨0, 0⟩, 0, ⟨3, 4⟩, 1, 20⟩).success = false :=
  have hc : kEpsilon * kEpsilon ≤ dist_sq ⟨⟨0, 0⟩, 0, ⟨3, 4⟩, 1, 20⟩ := by
    simp only [dist_sq, dx, dy]; unfold kEpsilon; norm_num
  ⟨rfl, hc, C7_immobile_hunter_amended ⟨⟨0, 0⟩, 0, ⟨3, 4⟩, 1, 20⟩ rfl hc⟩

/-- C8. A faster target that is not closing is never caught: for every request whose
start is not co-located, with `target_speed² − hunter_speed² ≥ ε` and `Δ · v_target ≥ 0`,
`solve` fails. -/
theorem C8_faster_target_not_closing (p : InterceptionParams)
    (hc : kEpsilon * kEpsilon ≤ dist_sq p)
    (hfast : kEpsilon ≤ p.target_speed * p.target_speed - p.hunter_speed * p.hunter_speed)
    (hdot : 0 ≤ dx p * nav_vx p.target_speed p.target_heading_deg +
      dy p * nav_vy p.target_speed p.target_heading_deg) :
    (solve p).success = false := by
  have he := kEpsilon_pos
  by_cases hs : p.hunter_speed < kEpsilon
  · rw [solve_immobile p (not_lt.mpr hc) hs]
  · have ha : kEpsilon ≤ coef_a p := by rw [coef_a_eq]; exact hfast
    have ha1 : ¬ |coef_a p| < kEpsilon := by
      rw [abs_of_pos (by linarith)]; exact not_lt.mpr ha
    have hb : 0 ≤ coef_b p := by
      unfold coef_b vTx vTy; linarith
    have hcpos : 0 < coef_c p := by
      unfold coef_c; nlinarith
    rcases solve_quadratic_spec p (not_lt.mpr hc) hs ha1 with ⟨_, hres⟩ | ⟨t, hleast, _⟩
    · rw [hres]
    · exfalso
      have ht : 0 < t := lt_trans he hleast.1.1
      have hroot := hleast.1.2
      have h1 : 0 < coef_a p * t ^ 2 := mul_pos (by linarith) (pow_pos ht 2)
      have h2 : 0 ≤ coef_b p * t := mul_nonneg hb (le_of_lt ht)
      linarith

/-- C8 on scenario B: hunter (0,0) speed 5, target (100,0) speed 20 heading 90°. -/
theorem C8_faster_target_not_closing_witness : (solve scenario_B).success = false := by
  apply C8_faster_target_not_closing scenario_B
  · simp only [dist_sq, dx, dy, scenario_B]; unfold kEpsilon; norm_num
  · simp only [scenario_B]; unfold kEpsilon; norm_num
  · show 0 ≤ dx scenario_B * ((20 : ℝ) * Real.sin (deg_to_rad 90)) +
      dy scenario_B * ((20 : ℝ) * Real.cos (deg_to_rad 90))
    rw [deg_to_rad_90, Real.sin_pi_div_two, Real.cos_pi_div_two]
    simp only [dx, dy, scenario_B]; norm_num

/-- C9. A strictly faster hunter always intercepts: for every request with
`hunter_speed ≥ 0`, `hunter_speed² − target_speed² ≥ ε` and
`|Δ| > ε · (hunter_speed + |target_speed|)`, for any target heading, `solve` succeeds,
and the distance is `hunter_speed × time`. -/
theorem C9_faster_hunter_intercepts (p : InterceptionParams) (hs0 : 0 ≤ p.hunter_speed)
    (hfast : kEpsilon ≤ p.hunter_speed * p.hunter_speed - p.target_speed * p.target_speed)
    (hfar : kEpsilon * (p.hunter_speed + |p.target_speed|) < Real.sqrt (dist_sq p)) :
    (solve p).success = true ∧ (solve p).distance = p.hunter_speed * (solve p).time := by
  have he := kEpsilon_pos
  have he1 := kEpsilon_lt_one
  by_cases hc : dist_sq p < kEpsilon * kEpsilon
  · rw [solve_colocated p hc]
    exact ⟨rfl, (mul_zero _).symm⟩
  · have hs : ¬ p.hunter_speed < kEpsilon := by
      intro hlt
      have h1 : p.hunter_speed * p.hunter_speed ≤ kEpsilon * kEpsilon :=
        mul_le_mul (le_of_lt hlt) (le_of_lt hlt) hs0 (le_of_lt he)
      have h2 : kEpsilon * kEpsilon < kEpsilon := by nlinarith
      nlinarith [mul_self_nonneg p.target_speed]
    have ha : coef_a p ≤ -kEpsilon := by rw [coef_a_eq]; linarith
    have ha1 : ¬ |coef_a p| < kEpsilon := by
      rw [abs_of_neg (by linarith)]; exact not_lt.mpr (by linarith)
    have ha0 : coef_a p ≠ 0 := by intro h0; rw [h0] at ha; linarith
    rcases solve_quadratic_spec p hc hs ha1 with ⟨hno, _⟩ | ⟨t, _, _, _, hres⟩
    · exfalso
      apply hno
      have hcn : 0 ≤ coef_c p := dist_sq_nonneg p
      have hd : 0 ≤ discriminant p := by
        unfold discriminant
        nlinarith [mul_self_nonneg (coef_b p), mul_nonneg (by linarith : 0 ≤ -coef_a p) hcn]
      refine ⟨root_t1 p, ?_, (root_iff p ha0 hd _).mpr (Or.inl rfl)⟩
      have hf := quadratic_pos_at_eps p hs0 hfar
      have hsq : -coef_b p - 2 * coef_a p * kEpsilon < Real.sqrt (discriminant p) := by
        by_cases hx : 0 ≤ -coef_b p - 2 * coef_a p * kEpsilon
        · rw [Real.lt_sqrt hx]
          unfold discriminant
          nlinarith [mul_pos (by linarith : 0 < -coef_a p) hf]
        · exact lt_of_lt_of_le (not_le.mp hx) (Real.sqrt_nonneg _)
      unfold root_t1
      rw [lt_div_iff_of_neg (by linarith)]
      linarith
    · rw [hres]
      exact ⟨rfl, rfl⟩

/-- C9 on scenario A: hunter (0,0) speed 15, target (100,0) speed 8 heading 45°. -/
theorem C9_faster_hunter_intercepts_witness :
    (solve scenario_A).success = true ∧
      (solve scenario_A).distance = 15 * (solve scenario_A).time := by
  apply C9_faster_hunter_intercepts scenario_A
  · show (0 : ℝ) ≤ 15
    norm_num
  · simp only [scenario_A]; unfold kEpsilon; norm_num
  · have hd : dist_sq scenario_A = 100 ^ 2 := by
      simp only [dist_sq, dx, dy, scenario_A]; norm_num
    rw [hd, Real.sqrt_sq (by norm_num)]
    simp only [scenario_A]; unfold kEpsilon
    rw [abs_of_pos (by norm_num)]; norm_num

/-- C10. Co-location: when the target starts exactly where the hunter is, for any
hunter speed `≥ 0` and any target speed and heading, `solve` succeeds with time 0,
heading 0, the hunter position as intercept, and distance 0. -/
theorem C10_colocation (p : InterceptionParams) (hpos : p.target_pos = p.hunter_pos)
    (_hspeed : 0 ≤ p.hunter_speed) :
    (solve p).success = true ∧ (solve p).time = 0 ∧ (solve p).heading_deg = 0 ∧
      (solve p).intercept = p.hunter_pos ∧ (solve p).distance = 0 := by
  have h : dist_sq p < kEpsilon * kEpsilon := by
    have : dist_sq p = 0 := by simp [dist_sq, dx, dy, hpos]
    rw [this]; exact mul_pos kEpsilon_pos kEpsilon_pos
  rw [solve_colocated p h]
  exact ⟨rfl, rfl, rfl, rfl, rfl⟩

/-- C10 applied to hunter and target both at (1, 2), hunter speed 3, target speed 4
heading 50°. -/
theorem C10_colocation_witness :
    (solve ⟨⟨1, 2⟩, 3, ⟨1, 2⟩, 4, 50⟩).success = true ∧
      (solve ⟨⟨1, 2⟩, 3, ⟨1, 2⟩, 4, 50⟩).time = 0 ∧
      (solve ⟨⟨1, 2⟩, 3, ⟨1, 2⟩, 4, 50⟩).heading_deg = 0 ∧
      (solve ⟨⟨1, 2⟩, 3, ⟨1, 2⟩, 4, 50⟩).intercept = ⟨1, 2⟩ ∧
      (solve ⟨⟨1, 2⟩, 3, ⟨1, 2⟩, 4, 50⟩).distance = 0 :=
  C10_colocation ⟨⟨1, 2⟩, 3, ⟨1, 2⟩, 4, 50⟩ rfl (by norm_num)

/-- C11 fails on `req_away` (equal speeds, target moving straight away): the start is
not co-located, the linear branch does not accept `-c / b = -1/2`, execution still
reaches the heading computation with `t = -1`, and the displacement
`intercept − hunter_pos` handed to `atan2` is the zero vector. -/
theorem C11_zero_displacement_on_req_away :
    kEpsilon * kEpsilon ≤ dist_sq req_away ∧ solve req_away = finish req_away (-1) ∧
      (solve req_away).success = true ∧
      (solve req_away).intercept.x - req_away.hunter_pos.x = 0 ∧
      (solve req_away).intercept.y - req_away.hunter_pos.y = 0 := by
  have hx : vTx req_away = 0 := vTx_heading_zero req_away rfl
  have hy : vTy req_away = 1 := vTy_heading_zero req_away rfl
  have hd : dist_sq req_away = 1 := by
    simp only [dist_sq, dx, dy, req_away]; norm_num
  refine ⟨?_, solve_req_away, ?_, ?_, ?_⟩
  · rw [hd]; nlinarith [kEpsilon_pos, kEpsilon_lt_one]
  · rw [solve_req_away]; rfl
  · rw [solve_req_away]
    show (0 : ℝ) + vTx req_away * -1 - 0 = 0
    rw [hx]; norm_num
  · rw [solve_req_away]
    show (1 : ℝ) + vTy req_away * -1 - 0 = 0
    rw [hy]; norm_num

end lead_pursuit
